import Mathlib

/-
Verification of the gutenberg-explorer text-preparation and LLM-request
pipeline: a shallow embedding in Lean 4 of the chapter segmenter
(src/lib/chapterUtils.ts), the content compressor
(src/lib/textCompressionUtils.ts), the token-budget fitter and response
interpreter (the Groq service module), and the rate-limit gate
(src/lib/rateLimitManager.ts), together with theorems settling the
specification's claims about them.

Modelling conventions:
- TypeScript strings are embedded as `List Char`; all concrete inputs are
  ASCII, where one UTF-16 code unit is one `Char` and JS `length`/indexing
  agree with list length/indexing.
- JS numbers are embedded as `Int` where the source only ever holds
  integers (lengths, timestamps, counts) and as exact fractions (`JsQ`)
  where fractional
  values arise (heuristic scores, reduction factors).  Every fractional
  value in the source is a small decimal built by +, *, /, min, floor and
  ceil; the claims proved below only depend on comparisons of such values
  at concrete inputs where IEEE double arithmetic is exact.
- Millisecond wall-clock times are an explicit `now : Int` parameter; the
  implicit mutation of the manager's `apiCalls` field is explicit state
  passing.
-/

/-! ### JS character classes and basic string primitives -/

/-- JS `\s` (ASCII subset): space, tab, newline, carriage return, vertical
tab, form feed. -/
def isJsSpace (c : Char) : Bool :=
  c = ' ' || c = '\t' || c = '\n' || c = '\r' || c = '\x0b' || c = '\x0c'

/-- JS `\w`: ASCII letters, digits and underscore. -/
def isJsWord (c : Char) : Bool :=
  ('a' ≤ c && c ≤ 'z') || ('A' ≤ c && c ≤ 'Z') || ('0' ≤ c && c ≤ '9') || c = '_'

/-- JS `\d`. -/
def isJsDigit (c : Char) : Bool := '0' ≤ c && c ≤ '9'

def isUpperAZ (c : Char) : Bool := 'A' ≤ c && c ≤ 'Z'

def isLowerAZ (c : Char) : Bool := 'a' ≤ c && c ≤ 'z'

/-- The character class `[IVXLCDM]` of the chapter-heading patterns. -/
def isRomanUpper (c : Char) : Bool :=
  c = 'I' || c = 'V' || c = 'X' || c = 'L' || c = 'C' || c = 'D' || c = 'M'

/-- Source `[IVXLCDM]` under the `i` flag: either case accepted. -/
def isRomanCI (c : Char) : Bool :=
  isRomanUpper c || c = 'i' || c = 'v' || c = 'x' || c = 'l' || c = 'c' || c = 'd' || c = 'm'

/-- ASCII lower-casing, as `String.prototype.toLowerCase` acts on ASCII. -/
def jsToLowerChar (c : Char) : Char :=
  if isUpperAZ c then Char.ofNat (c.toNat + 32) else c

def jsToLower (l : List Char) : List Char := l.map jsToLowerChar

/-- Clamp a JS slice index into `[0, len]`: negative indices count from the
end of the string, as in `String.prototype.slice`. -/
def jsSliceIdx (len : Nat) (x : Int) : Nat :=
  if x < 0 then ((len : Int) + x).toNat.min len else x.toNat.min len

/-- JS `slice(a, b)` on strings/arrays (integer arguments). -/
def jsSlice (l : List α) (a b : Int) : List α :=
  let s := jsSliceIdx l.length a
  let e := jsSliceIdx l.length b
  ((l.drop s).take (e - s))

/-- JS `slice(a)` with only a start argument. -/
def jsSliceFrom (l : List α) (a : Int) : List α :=
  jsSlice l a (l.length : Int)

/-! #### Exact fractions for JS numbers

Fractional JS numbers in the source (heuristic scores, reduction factors)
are embedded as exact unnormalized fractions.  Every operation below keeps
the denominator positive for the values the source constructs (the only
division is by a positive count or length), so the cross-multiplication
comparisons agree with the rational order. -/

structure JsQ where
  num : Int
  den : Int
deriving DecidableEq, Repr

instance (n : Nat) : OfNat JsQ n := ⟨⟨(n : Int), 1⟩⟩

def JsQ.ofNat (n : Nat) : JsQ := ⟨(n : Int), 1⟩

def JsQ.ofInt (n : Int) : JsQ := ⟨n, 1⟩

instance : Add JsQ := ⟨fun a b => ⟨a.num * b.den + b.num * a.den, a.den * b.den⟩⟩

instance : Mul JsQ := ⟨fun a b => ⟨a.num * b.num, a.den * b.den⟩⟩

instance : Div JsQ := ⟨fun a b => ⟨a.num * b.den, a.den * b.num⟩⟩

instance : Neg JsQ := ⟨fun a => ⟨-a.num, a.den⟩⟩

instance : Sub JsQ := ⟨fun a b => a + (-b)⟩

def JsQ.le (a b : JsQ) : Bool := a.num * b.den ≤ b.num * a.den

def JsQ.lt (a b : JsQ) : Bool := a.num * b.den < b.num * a.den

/-- JS `Math.min` on (positive-denominator) fractions. -/
def JsQ.minQ (a b : JsQ) : JsQ := if JsQ.le a b then a else b

/-- JS `Math.floor`. -/
def JsQ.floorQ (q : JsQ) : Int := Int.fdiv q.num q.den

/-- JS `Math.ceil`. -/
def JsQ.ceilQ (q : JsQ) : Int := -(Int.fdiv (-q.num) q.den)

/-- Truncation toward zero, the `ToIntegerOrInfinity` conversion JS applies
to fractional slice arguments. -/
def JsQ.truncQ (q : JsQ) : Int :=
  if JsQ.lt q 0 then -(Int.fdiv (-q.num) q.den) else Int.fdiv q.num q.den

/-- JS `slice` with (possibly fractional) numeric arguments. -/
def jsSliceQ (l : List α) (a b : JsQ) : List α :=
  jsSlice l (JsQ.truncQ a) (JsQ.truncQ b)

/-- JS `substring(a, b)`: clamps both indices to `[0, len]` and swaps them
if out of order. -/
def jsSubstring (l : List α) (a b : Int) : List α :=
  let s := jsSliceIdx l.length a
  let e := jsSliceIdx l.length b
  ((l.drop (min s e)).take (max s e - min s e))

/-- JS `substring(a)` with only a start argument. -/
def jsSubstringFrom (l : List α) (a : Int) : List α :=
  jsSubstring l a (l.length : Int)

/-- JS `String.prototype.trim` (ASCII whitespace). -/
def jsTrim (l : List Char) : List Char :=
  ((l.dropWhile isJsSpace).reverse.dropWhile isJsSpace).reverse

/-- Whether `pat` occurs at the head of `l`. -/
def headMatches : List Char → List Char → Bool
  | [], _ => true
  | _ :: _, [] => false
  | p :: ps, c :: cs => p = c && headMatches ps cs

/-- Index of the first occurrence of `pat` in `l`, or `-1` (JS `indexOf`). -/
def jsIndexOfAux (pat : List Char) : List Char → Nat → Int
  | [], _ => if pat = [] then 0 else -1
  | c :: cs, i =>
    if headMatches pat (c :: cs) then (i : Int)
    else jsIndexOfAux pat cs (i + 1)

def jsIndexOf (l pat : List Char) : Int :=
  if pat = [] then 0 else jsIndexOfAux pat l 0

/-- Index of the last occurrence of `pat` in `l`, or `-1` (JS `lastIndexOf`). -/
def jsLastIndexOfAux (pat : List Char) : List Char → Nat → Int → Int
  | [], _, best => best
  | c :: cs, i, best =>
    if headMatches pat (c :: cs) then jsLastIndexOfAux pat cs (i + 1) (i : Int)
    else jsLastIndexOfAux pat cs (i + 1) best

def jsLastIndexOf (l pat : List Char) : Int :=
  jsLastIndexOfAux pat l 0 (if pat = [] then (l.length : Int) else -1)

/-- JS `String.prototype.includes`. -/
def jsIncludes (l pat : List Char) : Bool :=
  0 ≤ jsIndexOf l pat

/-! ### Stable sorting (JS `Array.prototype.sort` with a comparator)

`Array.prototype.sort` is required to be stable; all comparators in the
source are of the form `(a, b) => key a - key b` (ascending by key) or
`(a, b) => key b - key a` (descending by key).  A stable sort by a boolean
"goes-before-or-equal" test models both. -/

def stableInsert (leB : α → α → Bool) (a : α) : List α → List α
  | [] => [a]
  | b :: l => if leB a b then a :: b :: l else b :: stableInsert leB a l

def jsSortLeB (leB : α → α → Bool) : List α → List α
  | [] => []
  | a :: l => stableInsert leB a (jsSortLeB leB l)

/-! ### Generic leftmost regex-style scanning

`scanMatchesAux matchAt fuel prev l pos` walks the text the way a JS global
regex `exec` loop does: at each position it asks `matchAt prev rest` for
the length of a match starting there (`prev` is the preceding character,
for `\b` tests); on a match of length `n ≥ 1` it records `(pos, n)` and
resumes after the match, on a zero-length match it records the match and
advances one character (JS advances `lastIndex` past an empty match), and
otherwise it advances one character. -/

def scanMatchesAux (matchAt : Option Char → List Char → Option Nat) :
    Nat → Option Char → List Char → Nat → List (Nat × Nat)
  | 0, _, _, _ => []
  | fuel + 1, prev, l, pos =>
    match l with
    | [] => []
    | c :: rest =>
      match matchAt prev (c :: rest) with
      | some 0 => (pos, 0) :: scanMatchesAux matchAt fuel (some c) rest (pos + 1)
      | some (n + 1) =>
        (pos, n + 1) ::
          scanMatchesAux matchAt fuel ((c :: rest).get? n) ((c :: rest).drop (n + 1))
            (pos + (n + 1))
      | none => scanMatchesAux matchAt fuel (some c) rest (pos + 1)

def scanMatches (matchAt : Option Char → List Char → Option Nat) (l : List Char) :
    List (Nat × Nat) :=
  scanMatchesAux matchAt l.length none l 0

/-! ### Rate limit manager (src/lib/rateLimitManager.ts)

The manager's mutable `apiCalls` array is passed explicitly; `Date.now()`
is the explicit parameter `now` (milliseconds). -/

structure APICallRecord where
  timestamp : Int
  endpoint : String
deriving DecidableEq, Repr

structure RateLimitConfig where
  maxCallsPerMinute : Nat
  maxCallsPerHour : Nat
  maxCallsPerDay : Nat
deriving DecidableEq, Repr

/-- The constructor defaults: 5 calls/minute, 30/hour, 100/day. -/
def defaultRateLimitConfig : RateLimitConfig :=
  { maxCallsPerMinute := 5, maxCallsPerHour := 30, maxCallsPerDay := 100 }

/-- Source `recordCall`: push `{timestamp: Date.now(), endpoint}`. -/
def recordCall (calls : List APICallRecord) (now : Int) (endpoint : String) :
    List APICallRecord :=
  calls ++ [⟨now, endpoint⟩]

/-- Source `cleanupOldCalls`: drop records not strictly newer than 24 hours ago. -/
def cleanupOldCalls (calls : List APICallRecord) (now : Int) : List APICallRecord :=
  calls.filter (fun call => now - 24 * 60 * 60 * 1000 < call.timestamp)

/-- Number of records for `endpoint` with timestamp strictly newer than
`now - windowMs`. -/
def callsInWindow (calls : List APICallRecord) (now windowMs : Int)
    (endpoint : String) : Nat :=
  (calls.filter (fun call => now - windowMs < call.timestamp && call.endpoint = endpoint)).length

/-- Source `canMakeCall`: after cleanup, all three windowed counts must be strictly
below their ceilings. -/
def canMakeCall (cfg : RateLimitConfig) (calls : List APICallRecord) (now : Int)
    (endpoint : String) : Bool :=
  let cleaned := cleanupOldCalls calls now
  let callsLastMinute := callsInWindow cleaned now (60 * 1000) endpoint
  let callsLastHour := callsInWindow cleaned now (60 * 60 * 1000) endpoint
  let callsLastDay := callsInWindow cleaned now (24 * 60 * 60 * 1000) endpoint
  callsLastMinute < cfg.maxCallsPerMinute &&
    callsLastHour < cfg.maxCallsPerHour &&
    callsLastDay < cfg.maxCallsPerDay

/-- The trailing-minute window for `endpoint`.  It is computed on the
cleaned list because `canMakeCall` has just run `cleanupOldCalls` on the
shared state; the two agree because the minute window is inside the day
window. -/
def minuteWindow (calls : List APICallRecord) (now : Int) (endpoint : String) :
    List APICallRecord :=
  (cleanupOldCalls calls now).filter
    (fun call => now - 60 * 1000 < call.timestamp && call.endpoint = endpoint)

/-- The minute window sorted ascending by timestamp with the stable sort
(`recentCalls` in `getTimeToWait`, comparator `(a, b) => a.timestamp -
b.timestamp`). -/
def recentMinuteCalls (calls : List APICallRecord) (now : Int) (endpoint : String) :
    List APICallRecord :=
  jsSortLeB (fun a b => a.timestamp ≤ b.timestamp) (minuteWindow calls now endpoint)

/-- Source `getTimeToWait`: `0` when a call is admissible; otherwise, when the
trailing-minute window holds at least `maxCallsPerMinute` calls, wait until
the oldest of them leaves the window, plus a 100 ms buffer; otherwise `0`.
(The source indexes `recentCalls[0]`; under the guard the window is
nonempty whenever `maxCallsPerMinute ≥ 1`, and `headD` supplies a dummy
record in the out-of-model case where the source would crash on
`undefined.timestamp`.) -/
def getTimeToWait (cfg : RateLimitConfig) (calls : List APICallRecord) (now : Int)
    (endpoint : String) : Int :=
  if canMakeCall cfg calls now endpoint then 0
  else
    let recentCalls := recentMinuteCalls calls now endpoint
    if cfg.maxCallsPerMinute ≤ recentCalls.length then
      ((recentCalls.headD ⟨0, ""⟩).timestamp + 60 * 1000) - now + 100
    else 0

structure LimitBucket where
  used : Nat
  max : Nat
  remaining : Int
deriving DecidableEq, Repr

structure LimitsInfo where
  minuteLimit : LimitBucket
  hourLimit : LimitBucket
  dayLimit : LimitBucket
deriving DecidableEq, Repr

/-- Source `getLimitsInfo`: cleanup, then report used/max/remaining per window. -/
def getLimitsInfo (cfg : RateLimitConfig) (calls : List APICallRecord) (now : Int)
    (endpoint : String) : LimitsInfo :=
  let cleaned := cleanupOldCalls calls now
  let callsLastMinute := callsInWindow cleaned now (60 * 1000) endpoint
  let callsLastHour := callsInWindow cleaned now (60 * 60 * 1000) endpoint
  let callsLastDay := callsInWindow cleaned now (24 * 60 * 60 * 1000) endpoint
  { minuteLimit :=
      { used := callsLastMinute, max := cfg.maxCallsPerMinute,
        remaining := (cfg.maxCallsPerMinute : Int) - callsLastMinute }
    hourLimit :=
      { used := callsLastHour, max := cfg.maxCallsPerHour,
        remaining := (cfg.maxCallsPerHour : Int) - callsLastHour }
    dayLimit :=
      { used := callsLastDay, max := cfg.maxCallsPerDay,
        remaining := (cfg.maxCallsPerDay : Int) - callsLastDay } }

/-! ### withRateLimit and the Groq request executor's error mapping

A rejected promise carries a JS error value; the fields the source
inspects are `message`, `response.status`, `response.data.message`,
`response.statusText`, `response.headers['retry-after']` and `code`. -/

structure JsError where
  message : String
  responseStatus : Option Int
  responseDataMessage : Option String
  responseStatusText : String
  retryAfterHeader : Option String
  code : Option String
deriving DecidableEq, Repr

/-- The catch handler of `makeGroqRequest`: 401 becomes the invalid-key
error, 429 is rethrown unchanged, any other HTTP status becomes a generic
API error, and non-HTTP errors are rethrown unchanged. -/
def makeGroqRequestHandler (err : JsError) : JsError :=
  match err.responseStatus with
  | some s =>
    if s = 401 then
      { message := "Invalid API key. Please check your credentials and try again.",
        responseStatus := none, responseDataMessage := none,
        responseStatusText := "", retryAfterHeader := none, code := none }
    else if s = 429 then err
    else
      { message := "API error: " ++
          (match err.responseDataMessage with
           | some m => if m = "" then err.responseStatusText else m
           | none => err.responseStatusText),
        responseStatus := none, responseDataMessage := none,
        responseStatusText := "", retryAfterHeader := none, code := none }
  | none => err

/-- Source `withRateLimit`'s retry test:
`error.response?.status === 429 || error.code === 'rate_limit_exceeded'`. -/
def isRateLimitRetryError (err : JsError) : Bool :=
  err.responseStatus = some 429 || err.code = some "rate_limit_exceeded"

/-- One invocation of `withRateLimit` (after the wait), given the outcome
of `apiCall()`: on success the call is recorded; on a rate-limit error the
function recurses (flagged `true` here); on any other error it rethrows
with the history untouched. -/
def withRateLimitOnce (outcome : Except JsError α) (calls : List APICallRecord)
    (now : Int) (endpoint : String) :
    Except JsError α × List APICallRecord × Bool :=
  match outcome with
  | .ok v => (.ok v, recordCall calls now endpoint, false)
  | .error e =>
    if isRateLimitRetryError e then (.error e, calls, true)
    else (.error e, calls, false)

/-- JS post-increment: `retry++` evaluates to the old value and then bumps
the (discarded) local. -/
def jsPostInc (retry : Int) : Int × Int := (retry, retry + 1)

inductive RetryRunOutcome
  | maxRetriesError
  | exhaustedFuel
deriving DecidableEq, Repr

/-- The retry ladder of `withRateLimit` when every `apiCall()` rejects with
HTTP 429: each level checks `retry > numberOfRetries`, waits, and recurses
with the argument `retry++` — i.e. with `(jsPostInc retry).1`, the
unchanged value.  `fuel` bounds how many recursive levels we unfold. -/
def withRateLimitAlways429 (numberOfRetries : Int) : Int → Nat → RetryRunOutcome
  | _, 0 => .exhaustedFuel
  | retry, fuel + 1 =>
    if numberOfRetries < retry then .maxRetriesError
    else withRateLimitAlways429 numberOfRetries (jsPostInc retry).1 fuel

/-! ### Regex building blocks used by the compressor and segmenter -/

/-- Source `\b` at the start of a match whose first character is a word character:
the preceding character must be absent or a non-word character. -/
def boundaryBefore (prev : Option Char) : Bool :=
  match prev with
  | none => true
  | some p => !isJsWord p

/-- Case-insensitive prefix test (the `i` flag on ASCII). -/
def headMatchesCI : List Char → List Char → Bool
  | [], _ => true
  | _ :: _, [] => false
  | p :: ps, c :: cs => jsToLowerChar p = jsToLowerChar c && headMatchesCI ps cs

/-- Matcher for `\bword\w*\b` with the `i` flag, at one position. -/
def wordStemAt (word : List Char) (prev : Option Char) (l : List Char) : Option Nat :=
  if boundaryBefore prev && headMatchesCI word l then
    some (word.length + ((l.drop word.length).takeWhile isJsWord).length)
  else none

/-- Number of matches of `/\bword\w*\b/gi` in `l` (e.g. the emotion- and
thematic-word scoring loops). -/
def countWordStem (word : List Char) (l : List Char) : Nat :=
  (scanMatches (wordStemAt word) l).length

/-- Matcher for `\b[A-Z][a-z]+\b` at one position: a capitalized word.  The
maximal lowercase run must be followed by a non-word character (shrinking
the `[a-z]+` run cannot restore the trailing `\b`, so no backtracking is
needed). -/
def capitalizedWordAt (prev : Option Char) (l : List Char) : Option Nat :=
  match l with
  | [] => none
  | c :: rest =>
    if boundaryBefore prev && isUpperAZ c then
      let run := (rest.takeWhile isLowerAZ).length
      if 0 < run then
        match rest.drop run with
        | [] => some (1 + run)
        | d :: _ => if isJsWord d then none else some (1 + run)
      else none
    else none

/-- Number of matches of `/\b[A-Z][a-z]+\b/g` (the `names` proxy). -/
def countCapitalizedWords (l : List Char) : Nat :=
  (scanMatches capitalizedWordAt l).length

/-- Source `/\b[A-Z][a-z]+\b/.test(s)`. -/
def testCapitalizedWord (l : List Char) : Bool :=
  0 < countCapitalizedWords l

def apostrophe : Char := Char.ofNat 39

def isQuoteChar (c : Char) : Bool := c = '"' || c = apostrophe

def isLineTerminator (c : Char) : Bool := c = '\n' || c = '\r'

/-- Matcher for `["'].*?["']` (no `s` flag) at one position: an opening
quote, then lazily the nearest closing quote on the same line. -/
def quotePairAt (_prev : Option Char) (l : List Char) : Option Nat :=
  match l with
  | [] => none
  | c :: rest =>
    if isQuoteChar c then
      let inner := rest.takeWhile (fun d => !isQuoteChar d && !isLineTerminator d)
      match rest.drop inner.length with
      | [] => none
      | d :: _ => if isQuoteChar d then some (1 + inner.length + 1) else none
    else none

/-- Number of matches of `/["'].*?["']/g` (the dialogue-span counter). -/
def countQuotePairs (l : List Char) : Nat :=
  (scanMatches quotePairAt l).length

/-- Index (0-based) of the last `'\n'` in a list, if any. -/
def lastNewlineIdx (l : List Char) : Option Nat :=
  match l.reverse.findIdx? (fun c => c = '\n') with
  | some k => some (l.length - 1 - k)
  | none => none

/-- Matcher for the paragraph separator `/\n\s*\n/` at one position: a
newline, then a greedy whitespace run whose backtracked endpoint is the
last newline inside the run. -/
def paraSepAt (_prev : Option Char) (l : List Char) : Option Nat :=
  match l with
  | [] => none
  | c :: rest =>
    if c = '\n' then
      let ws := rest.takeWhile isJsSpace
      match lastNewlineIdx ws with
      | some j => some (1 + j + 1)
      | none => none
    else none

/-- Split a string at a list of non-overlapping `(position, length)`
separator matches (the core of `String.prototype.split(regex)`). -/
def splitByMatches (l : List Char) : List (Nat × Nat) → Nat → List (List Char)
  | [], start => jsSlice l (start : Int) (l.length : Int) :: []
  | (pos, len) :: rest, start =>
    jsSlice l (start : Int) (pos : Int) :: splitByMatches l rest (pos + len)

/-- Source `text.split(/\n\s*\n/)`. -/
def splitParagraphs (text : List Char) : List (List Char) :=
  splitByMatches text (scanMatches paraSepAt text) 0

/-- Matcher for the sentence-break pattern `([.!?])\s*(?=[A-Z])`: a
sentence-ending punctuation mark, greedy whitespace, and an uppercase
letter ahead (not consumed). -/
def sentenceBreakAt (_prev : Option Char) (l : List Char) : Option Nat :=
  match l with
  | [] => none
  | c :: rest =>
    if c = '.' || c = '!' || c = '?' then
      let ws := rest.takeWhile isJsSpace
      match rest.drop ws.length with
      | [] => none
      | d :: _ => if isUpperAZ d then some (1 + ws.length) else none
    else none

/-- Replace each `(position, length)` match by a computed replacement
(the core of `String.prototype.replace(regex, …)`). -/
def replaceByMatches (l : List Char) (f : Nat → Nat → List Char) :
    List (Nat × Nat) → Nat → List Char
  | [], start => jsSlice l (start : Int) (l.length : Int)
  | (pos, len) :: rest, start =>
    jsSlice l (start : Int) (pos : Int) ++ f pos len ++ replaceByMatches l f rest (pos + len)

/-- Source `text.replace(/([.!?])\s*(?=[A-Z])/g, "$1|")`: the punctuation mark is
kept and the whitespace replaced by `'|'`. -/
def insertSentenceBars (text : List Char) : List Char :=
  replaceByMatches text (fun pos _len => jsSlice text (pos : Int) ((pos : Int) + 1) ++ ['|'])
    (scanMatches sentenceBreakAt text) 0

/-- Split a list on a separator element (JS `split("|")`). -/
def splitOnChar (sep : Char) (l : List Char) : List (List Char) :=
  splitByMatches l ((l.enum.filter (fun p => p.2 = sep)).map (fun p => (p.1, 1))) 0

/-- First-insertion-order deduplication, `Array.from(new Set(xs))`. -/
def dedupKeepFirst [DecidableEq α] : List α → List α
  | [] => []
  | a :: l => a :: dedupKeepFirst (l.filter (fun x => x ≠ a))
termination_by l => l.length
decreasing_by
  simp only [List.length_cons]
  exact Nat.lt_succ_of_le (List.length_filter_le _ _)

/-! ### Content compressor (src/lib/textCompressionUtils.ts) -/

inductive AnalysisType
  | characters
  | summary
  | sentiment
  | themes
  | characterGraph
deriving DecidableEq, Repr

def narrativeWords : List (List Char) :=
  ["said", "asked", "replied", "told", "felt", "thought", "knew",
   "because", "therefore", "however", "although",
   "suddenly", "finally", "eventually"].map String.toList

def emotionWordsShort : List (List Char) :=
  ["feel", "felt", "emotion", "angry", "happy", "sad", "joy", "fear",
   "love", "hate", "upset", "worried", "anxious", "excited", "nervous"].map String.toList

def emotionWordsLong : List (List Char) :=
  ["feel", "felt", "emotion", "angry", "happy", "sad", "joy", "fear",
   "love", "hate", "upset", "worried", "anxious", "excited", "nervous",
   "afraid", "scared", "terrified", "delighted", "thrilled", "horrified",
   "pleased", "satisfied", "disappointed", "devastated", "hopeful",
   "hopeless", "desperate", "content", "miserable", "ecstatic"].map String.toList

def thematicWords : List (List Char) :=
  ["truth", "beauty", "justice", "freedom", "love", "hate", "war", "peace",
   "life", "death", "fate", "destiny", "choice", "responsibility", "moral",
   "ethics", "right", "wrong", "good", "evil", "society", "individual",
   "nature", "civilization", "power", "corruption", "redemption", "sacrifice",
   "identity", "meaning", "purpose", "struggle", "conflict", "harmony",
   "balance", "chaos", "order", "tradition", "change", "progress"].map String.toList

/-- Sentence score in `extractKeyContent`. -/
def keyContentScore (sentence : List Char) : JsQ :=
  let lenScore := JsQ.minQ (5 : JsQ) (JsQ.ofNat sentence.length / 20)
  let dialogScore : JsQ :=
    if jsIncludes sentence ['"'] || jsIncludes sentence [apostrophe] then 2 else 0
  let capScore : JsQ := if testCapitalizedWord sentence then 1 else 0
  let narrScore : JsQ :=
    JsQ.ofNat (narrativeWords.filter (fun w => jsIncludes (jsToLower sentence) w)).length *
      ((1 : JsQ) / 2)
  lenScore + dialogScore + capScore + narrScore

/-- Source `extractKeyContent(text, compressionLevel)`. -/
def extractKeyContent (text : List Char) (compressionLevel : Int) : List Char :=
  if text.length < 2000 then text
  else
    let sentences :=
      (splitOnChar '|' (insertSentenceBars text)).filter (fun s => 0 < (jsTrim s).length)
    if sentences.length < 10 then text
    else
      let keepPercent : Int := max 5 (100 - compressionLevel * 15)
      let sentencesToKeep : Int :=
        max 10 (JsQ.floorQ (JsQ.ofNat sentences.length * (JsQ.ofInt keepPercent / 100)))
      let scores := sentences.map keyContentScore
      let indexedScores := scores.enum
      let sortedScores := jsSortLeB (fun a b => JsQ.le b.2 a.2) indexedScores
      let selectedIndices :=
        jsSortLeB (fun a b => a ≤ b) ((jsSlice sortedScores 0 sentencesToKeep).map (fun p => p.1))
      let selectedSentences := selectedIndices.map (fun i => sentences.getD i [])
      let startSentences := jsSlice sentences 0 3
      let endSentences := jsSliceFrom sentences (-3)
      let uniqueSentences :=
        dedupKeepFirst (startSentences ++ selectedSentences ++ endSentences)
      let ordered :=
        jsSortLeB (fun a b => sentences.indexOf a ≤ sentences.indexOf b) uniqueSentences
      List.intercalate [' '] ordered

/-- Paragraph score in `summarizeForCharacterAnalysis`. -/
def characterScore (paragraph : List Char) : JsQ :=
  JsQ.ofNat (countCapitalizedWords paragraph) * 2 +
    JsQ.ofNat (countQuotePairs paragraph) * 3 +
    JsQ.ofNat (emotionWordsShort.filter (fun w => jsIncludes (jsToLower paragraph) w)).length

/-- Source `summarizeForCharacterAnalysis(text, maxLength)`. -/
def summarizeForCharacterAnalysis (text : List Char) (maxLength : Int) : List Char :=
  if (text.length : Int) ≤ maxLength then text
  else
    let paragraphs := splitParagraphs text
    let scoredParagraphs :=
      jsSortLeB (fun a b => JsQ.le b.2 a.2) (paragraphs.map (fun p => (p, characterScore p)))
    let compressionRatio : JsQ := JsQ.ofInt maxLength / JsQ.ofNat text.length
    let paragraphsToKeep : Int :=
      max 5 (JsQ.ceilQ (JsQ.ofNat paragraphs.length * compressionRatio))
    let firstParagraph := paragraphs.headD []
    let lastParagraph := paragraphs.getLastD []
    let topParagraphs := (jsSlice scoredParagraphs 0 paragraphsToKeep).map (fun p => p.1)
    let result :=
      List.intercalate ['\n', '\n']
        ([firstParagraph] ++
          topParagraphs.filter (fun p => p ≠ firstParagraph && p ≠ lastParagraph) ++
          [lastParagraph])
    if maxLength < (result.length : Int) then
      firstParagraph ++ "\n\n".toList ++
        "[...content summarized...]\n\n".toList ++
        List.intercalate ['\n', '\n'] (jsSlice topParagraphs 0 3) ++ "\n\n".toList ++
        "[...content summarized...]\n\n".toList ++
        lastParagraph
    else result

/-- Paragraph score in `compressForSentimentAnalysis`. -/
def sentimentScore (paragraph : List Char) : JsQ :=
  let wordScore : JsQ :=
    JsQ.ofNat (emotionWordsLong.map (fun w => countWordStem w paragraph)).sum * 2
  let exclamations := paragraph.count '!'
  let questions := paragraph.count '?'
  let dialogue := paragraph.count '"' + paragraph.count apostrophe
  wordScore + JsQ.ofNat exclamations * 3 + JsQ.ofNat questions + JsQ.ofNat dialogue / 2

/-- Source `compressForSentimentAnalysis(text, maxLength)`. -/
def compressForSentimentAnalysis (text : List Char) (maxLength : Int) : List Char :=
  if (text.length : Int) ≤ maxLength then text
  else
    let paragraphs := splitParagraphs text
    let scoredParagraphs :=
      jsSortLeB (fun a b => JsQ.le b.2 a.2) (paragraphs.map (fun p => (p, sentimentScore p)))
    let third := paragraphs.length / 3
    let beginning := jsSlice paragraphs 0 (third : Int)
    let middle := jsSlice paragraphs (third : Int) ((third : Int) * 2)
    let endSection := jsSliceFrom paragraphs ((third : Int) * 2)
    let lookupScore := fun (p : List Char) =>
      (((scoredParagraphs.find? (fun sp => sp.1 = p)).map (fun sp => sp.2)).getD 0)
    let pickTop2 := fun (sec : List (List Char)) =>
      (jsSlice (jsSortLeB (fun a b => JsQ.le b.2 a.2) (sec.map (fun p => (p, lookupScore p)))) 0 2).map
        (fun p => p.1)
    let topBeginning := pickTop2 beginning
    let topMiddle := pickTop2 middle
    let topEnd := pickTop2 endSection
    List.intercalate ['\n', '\n']
      ([paragraphs.headD []] ++ topBeginning ++ ["[...beginning section...]".toList] ++
        topMiddle ++ ["[...middle section...]".toList] ++ topEnd ++
        [paragraphs.getLastD []])

/-- Paragraph score in `compressForThemeAnalysis`. -/
def themeScore (paragraph : List Char) : JsQ :=
  let wordScore : JsQ :=
    JsQ.ofNat (thematicWords.map (fun w => countWordStem w paragraph)).sum * 2
  let lenScore := JsQ.minQ (5 : JsQ) (JsQ.ofNat paragraph.length / 200)
  let quotes := paragraph.count '"' + paragraph.count apostrophe
  wordScore + lenScore + (if quotes < 4 then (2 : JsQ) else 0)

/-- Source `compressForThemeAnalysis(text, maxLength)`. -/
def compressForThemeAnalysis (text : List Char) (maxLength : Int) : List Char :=
  if (text.length : Int) ≤ maxLength then text
  else
    let paragraphs := splitParagraphs text
    let scoredParagraphs :=
      jsSortLeB (fun a b => JsQ.le b.2 a.2) (paragraphs.map (fun p => (p, themeScore p)))
    let topParagraphs := (jsSlice scoredParagraphs 0 6).map (fun p => p.1)
    List.intercalate ['\n', '\n']
      ([paragraphs.headD []] ++
        topParagraphs.filter
          (fun p => p ≠ paragraphs.headD [] && p ≠ paragraphs.getLastD []) ++
        [paragraphs.getLastD []])

/-- Source `compressTextForAnalysis(text, analysisType, maxLength)`.  The switch
covers all five members of `AnalysisType`; the source's `default` branch
(`extractKeyContent(text, 2)`) is unreachable. -/
def compressTextForAnalysis (text : List Char) (analysisType : AnalysisType)
    (maxLength : Int) : List Char :=
  if (text.length : Int) ≤ maxLength then text
  else
    match analysisType with
    | .characters => summarizeForCharacterAnalysis text maxLength
    | .characterGraph => summarizeForCharacterAnalysis text maxLength
    | .sentiment => compressForSentimentAnalysis text maxLength
    | .themes => compressForThemeAnalysis text maxLength
    | .summary => extractKeyContent text 3

/-! ### Chapter segmenter (src/lib/chapterUtils.ts) -/

/-- Length of the maximal `([IVXLCDM]+|\d+)` run: the roman branch is tried
first; if it matches at least one character the digit branch is never
reached (the character classes are disjoint, so backtracking between the
branches cannot succeed). -/
def groupRunLen (romanPred : Char → Bool) (l : List Char) : Nat :=
  let r := (l.takeWhile romanPred).length
  if 0 < r then r else (l.takeWhile isJsDigit).length

/-- Length of the heading tail `(?:\s+|:|\.)`: greedy whitespace first,
then a colon, then a period. -/
def headingTailLen (l : List Char) : Option Nat :=
  let ws := (l.takeWhile isJsSpace).length
  if 0 < ws then some ws
  else
    match l with
    | ':' :: _ => some 1
    | '.' :: _ => some 1
    | _ => none

/-- Matcher for `/\bCHAPTER\s+([IVXLCDM]+|\d+)(?:\s+|:|\.)/gi`. -/
def chapterHeadingCIAt (prev : Option Char) (l : List Char) : Option Nat :=
  if boundaryBefore prev && headMatchesCI ("chapter".toList) l then
    let afterWord := l.drop 7
    let ws := (afterWord.takeWhile isJsSpace).length
    if 0 < ws then
      let afterWs := afterWord.drop ws
      let g := groupRunLen isRomanCI afterWs
      if 0 < g then
        match headingTailLen (afterWs.drop g) with
        | some t => some (7 + ws + g + t)
        | none => none
      else none
    else none
  else none

/-- Matcher for `/\bChapter\s+([IVXLCDM]+|\d+)(?:\s+|:|\.)/g`
(case-sensitive, uppercase roman class). -/
def chapterHeadingCSAt (prev : Option Char) (l : List Char) : Option Nat :=
  if boundaryBefore prev && headMatches ("Chapter".toList) l then
    let afterWord := l.drop 7
    let ws := (afterWord.takeWhile isJsSpace).length
    if 0 < ws then
      let afterWs := afterWord.drop ws
      let g := groupRunLen isRomanUpper afterWs
      if 0 < g then
        match headingTailLen (afterWs.drop g) with
        | some t => some (7 + ws + g + t)
        | none => none
      else none
    else none
  else none

/-- Matcher for `/\b([IVXLCDM]+|\d+)\.\s+/g`. -/
def numberDotAt (prev : Option Char) (l : List Char) : Option Nat :=
  if boundaryBefore prev then
    let g := groupRunLen isRomanUpper l
    if 0 < g then
      match l.drop g with
      | '.' :: rest =>
        let ws := (rest.takeWhile isJsSpace).length
        if 0 < ws then some (g + 1 + ws) else none
      | _ => none
    else none
  else none

/-- Matcher for `/\n\s*([IVXLCDM]+|\d+)\s*\n/g`: a newline, greedy
whitespace, a roman-or-number token, then whitespace whose backtracked
endpoint is its last newline. -/
def numberOwnLineAt (_prev : Option Char) (l : List Char) : Option Nat :=
  match l with
  | [] => none
  | c :: rest =>
    if c = '\n' then
      let w := (rest.takeWhile isJsSpace).length
      let afterW := rest.drop w
      let g := groupRunLen isRomanUpper afterW
      if 0 < g then
        let w2 := (afterW.drop g).takeWhile isJsSpace
        match lastNewlineIdx w2 with
        | some j => some (1 + w + g + j + 1)
        | none => none
      else none
    else none

/-- All chapter markers: each pattern scans the whole text, and a marker
records the match offset together with the trimmed matched text
(`{ index: match.index, title: fullMatch.trim() }`).  No de-duplication is
performed across patterns. -/
def chapterMarkers (text : List Char) : List (Nat × List Char) :=
  ([chapterHeadingCIAt, chapterHeadingCSAt, numberDotAt, numberOwnLineAt].map
    (fun pat =>
      (scanMatches pat text).map
        (fun m => (m.1, jsTrim (jsSlice text (m.1 : Int) ((m.1 : Int) + (m.2 : Int))))))).flatten

/-- Markers sorted ascending by offset (`(a, b) => a.index - b.index`). -/
def sortedChapterMarkers (text : List Char) : List (Nat × List Char) :=
  jsSortLeB (fun a b => a.1 ≤ b.1) (chapterMarkers text)

/-- The consecutive `[marker, nextMarker)` span bounds, the last span
running to `textLength`. -/
def spanBounds : List Nat → Nat → List (Nat × Nat)
  | [], _ => []
  | [i], len => [(i, len)]
  | i :: j :: rest, len => (i, j) :: spanBounds (j :: rest) len

structure Chapter where
  title : List Char
  content : List Char
deriving DecidableEq, Repr

/-- The marker loop of `splitBookIntoChapters`: slice each span, trim it,
and keep it only when the trimmed content is longer than 100 characters;
the title numbering uses the marker's position in the sorted marker list
(so dropped markers still advance the number). -/
def buildChapters (text : List Char) (sorted : List (Nat × List Char)) : List Chapter :=
  ((sorted.zip (spanBounds (sorted.map (fun m => m.1)) text.length)).enum).filterMap
    (fun x =>
      let content := jsTrim (jsSlice text (x.2.2.1 : Int) (x.2.2.2 : Int))
      if 100 < content.length then
        some ⟨("Chapter " ++ toString (x.1 + 1) ++ ": ").toList ++ x.2.1.2, content⟩
      else none)

/-- Fixed-size chunking (the `i += chapterGroupSize` loop). -/
def chunkListAux (n : Nat) : Nat → List α → List (List α)
  | 0, _ => []
  | _, [] => []
  | fuel + 1, l => l.take n :: chunkListAux n fuel (l.drop n)

def chunkList (n : Nat) (l : List α) : List (List α) :=
  chunkListAux n l.length l

/-- The `chapters.length > 30` regrouping: combine contiguous runs of
`ceil(length / 20)` chapters, joining contents with a blank line. -/
def combineChapters (chapters : List Chapter) : List Chapter :=
  let chapterGroupSize := (chapters.length + 19) / 20
  (chunkList chapterGroupSize chapters).map
    (fun group =>
      ⟨("Chapters ".toList) ++ (group.headD ⟨[], []⟩).title ++ (" - ".toList) ++
          (group.getLastD ⟨[], []⟩).title,
        List.intercalate ['\n', '\n'] (group.map (fun ch => ch.content))⟩)

/-- Source `splitBookIntoChapters(text)`. -/
def splitBookIntoChapters (text : List Char) : List Chapter :=
  let markers := chapterMarkers text
  if markers = [] then [⟨"Complete Text".toList, text⟩]
  else
    let sorted := jsSortLeB (fun a b => a.1 ≤ b.1) markers
    let chapters := buildChapters text sorted
    if chapters = [] then [⟨"Complete Text".toList, text⟩]
    else if 30 < chapters.length then combineChapters chapters
    else chapters

/-- Source `estimateTokenCount(text)`: `Math.ceil(text / 4)` where the argument is
a character count. -/
def estimateTokenCount (n : Nat) : Nat := (n + 3) / 4

/-- Source `truncateForAnalysis(text, analysisType, maxLength)`: smart compression
first; if the result still exceeds the budget, splice
beginning/middle/end segments around omission markers. -/
def truncateForAnalysis (text : List Char) (analysisType : AnalysisType)
    (maxLength : Int) : List Char :=
  let compressed := compressTextForAnalysis text analysisType maxLength
  if (compressed.length : Int) ≤ maxLength then compressed
  else
    let thirdLength : Int := JsQ.floorQ (JsQ.ofInt maxLength / 3)
    let beginning := jsSlice text 0 thirdLength
    let middle :=
      jsSliceQ text
        (JsQ.ofNat (text.length / 2) - JsQ.ofInt thirdLength / 2)
        (JsQ.ofNat (text.length / 2) + JsQ.ofInt thirdLength / 2)
    let endPart := jsSliceFrom text ((text.length : Int) - thirdLength)
    beginning ++ "\n\n[...content omitted for length...]\n\n".toList ++ middle ++
      "\n\n[...content omitted for length...]\n\n".toList ++ endPart

/-! ### Token budget fitter (optimizePromptForTokenLimit) -/

/-- Source `MODEL_TOKEN_LIMITS` is the constant 8192. -/
def MODEL_TOKEN_LIMITS : Int := 8192

/-- Source `optimizePromptForTokenLimit(prompt, analysisType, modelName,
reservedTokens)`.  The `modelName` argument is unused by the source as
well.  `reductionFactor` is an exact rational here; in the source it is an
IEEE double, and every theorem below evaluates it only where double
arithmetic is exact. -/
def optimizePromptForTokenLimit (prompt : List Char) (analysisType : AnalysisType)
    (_modelName : String) (reservedTokens : Int) : List Char :=
  let tokenLimit := MODEL_TOKEN_LIMITS
  let availableTokens := tokenLimit - reservedTokens
  let estimatedTokens : Int := estimateTokenCount prompt.length
  if estimatedTokens ≤ availableTokens then prompt
  else
    let reductionFactor : JsQ := JsQ.ofInt availableTokens / JsQ.ofInt estimatedTokens
    let textStart := jsIndexOf prompt ("\"\"\"".toList) + 3
    let textEnd := jsLastIndexOf prompt ("\"\"\"".toList)
    if 3 ≤ textStart && textStart < textEnd then
      let textToCompress := jsSubstring prompt textStart textEnd
      let promptPrefix := jsSubstring prompt 0 textStart
      let promptSuffix := jsSubstringFrom prompt textEnd
      let keepLength : Int := JsQ.floorQ (JsQ.ofNat textToCompress.length * reductionFactor)
      let compressedText := truncateForAnalysis textToCompress analysisType keepLength
      promptPrefix ++ compressedText ++ promptSuffix
    else
      jsSubstring prompt 0 (JsQ.floorQ (JsQ.ofNat prompt.length * reductionFactor)) ++
        "...".toList

/-! ### Response interpreter (the structured-kind branch of analyzeWithGroq)

`JSON.parse` is embedded as a fuel-indexed recursive-descent parser over
the JSON grammar; only success/failure and the parsed shape matter to the
claims.  Number literals are validated against the JSON grammar and kept
as their lexemes. -/

inductive Json where
  | null
  | bool (b : Bool)
  | num (lexeme : List Char)
  | str (s : List Char)
  | arr (elems : List Json)
  | obj (members : List (List Char × Json))

/-- JSON's own whitespace (space, tab, newline, carriage return). -/
def isJsonWs (c : Char) : Bool :=
  c = ' ' || c = '\t' || c = '\n' || c = '\r'

def skipJsonWs (l : List Char) : List Char :=
  l.dropWhile isJsonWs

/-- Value of one hexadecimal digit of a `\uXXXX` escape. -/
def hexDigitValue (c : Char) : Option Nat :=
  let n := c.toNat
  if 48 ≤ n ∧ n ≤ 57 then some (n - 48)
  else if 97 ≤ n ∧ n ≤ 102 then some (n - 87)
  else if 65 ≤ n ∧ n ≤ 70 then some (n - 55)
  else none

/-- Parse the body of a JSON string literal after the opening quote,
returning the decoded characters and the remainder after the closing
quote. -/
def parseJsonStringBody : Nat → List Char → Option (List Char × List Char)
  | 0, _ => none
  | _, [] => none
  | fuel + 1, c :: rest =>
    if c = '"' then some ([], rest)
    else if c = '\\' then
      match rest with
      | [] => none
      | e :: rest2 =>
        let decoded : Option (Char × List Char) :=
          if e = '"' then some ('"', rest2)
          else if e = '\\' then some ('\\', rest2)
          else if e = '/' then some ('/', rest2)
          else if e = 'b' then some ('\x08', rest2)
          else if e = 'f' then some ('\x0c', rest2)
          else if e = 'n' then some ('\n', rest2)
          else if e = 'r' then some ('\r', rest2)
          else if e = 't' then some ('\t', rest2)
          else if e = 'u' then
            match rest2 with
            | h1 :: h2 :: h3 :: h4 :: rest3 =>
              match hexDigitValue h1, hexDigitValue h2, hexDigitValue h3, hexDigitValue h4 with
              | some v1, some v2, some v3, some v4 =>
                let n := ((v1 * 16 + v2) * 16 + v3) * 16 + v4
                some (Char.ofNat n, rest3)
              | _, _, _, _ => none
            | _ => none
          else none
        match decoded with
        | some (d, rest') =>
          match parseJsonStringBody fuel rest' with
          | some (s, rem) => some (d :: s, rem)
          | none => none
        | none => none
    else if c.toNat < 32 then none
    else
      match parseJsonStringBody fuel rest with
      | some (s, rem) => some (c :: s, rem)
      | none => none

/-- Parse a JSON number starting at the head of `l` (grammar-exact:
optional minus, `0` or a nonzero-led integer part, optional fraction,
optional exponent), returning its lexeme. -/
def parseJsonNumber (l : List Char) : Option (List Char × List Char) :=
  let afterMinus : Option (List Char × List Char) :=
    match l with
    | '-' :: rest => some (['-'], rest)
    | _ => some ([], l)
  match afterMinus with
  | none => none
  | some (sign, l1) =>
    let intPart : Option (List Char × List Char) :=
      match l1 with
      | '0' :: rest => some (['0'], rest)
      | c :: _ =>
        if isJsDigit c && c ≠ '0' then
          let run := l1.takeWhile isJsDigit
          some (run, l1.drop run.length)
        else none
      | [] => none
    match intPart with
    | none => none
    | some (ip, l2) =>
      let fracPart : Option (List Char × List Char) :=
        match l2 with
        | '.' :: rest =>
          let run := rest.takeWhile isJsDigit
          if 0 < run.length then some ('.' :: run, rest.drop run.length) else none
        | _ => some ([], l2)
      match fracPart with
      | none => none
      | some (fp, l3) =>
        let expPart : Option (List Char × List Char) :=
          match l3 with
          | e :: rest =>
            if e = 'e' || e = 'E' then
              let signExp : List Char × List Char :=
                match rest with
                | '+' :: r2 => (['+'], r2)
                | '-' :: r2 => (['-'], r2)
                | _ => ([], rest)
              let run := signExp.2.takeWhile isJsDigit
              if 0 < run.length then
                some (e :: (signExp.1 ++ run), signExp.2.drop run.length)
              else none
            else some ([], l3)
          | [] => some ([], l3)
        match expPart with
        | none => none
        | some (ep, l4) => some (sign ++ ip ++ fp ++ ep, l4)

mutual

/-- Parse one JSON value at the head of `l` (no leading whitespace). -/
def parseJsonValue : Nat → List Char → Option (Json × List Char)
  | 0, _ => none
  | _, [] => none
  | fuel + 1, c :: rest =>
    if c = '\x7b' then parseJsonMembers fuel (skipJsonWs rest) true
    else if c = '[' then parseJsonElems fuel (skipJsonWs rest) true
    else if c = '"' then
      match parseJsonStringBody (fuel + 1) rest with
      | some (s, rem) => some (.str s, rem)
      | none => none
    else if c = 't' then
      if headMatches ("rue".toList) rest then some (.bool true, rest.drop 3) else none
    else if c = 'f' then
      if headMatches ("alse".toList) rest then some (.bool false, rest.drop 4) else none
    else if c = 'n' then
      if headMatches ("ull".toList) rest then some (.null, rest.drop 3) else none
    else if c = '-' || isJsDigit c then
      match parseJsonNumber (c :: rest) with
      | some (lex, rem) => some (.num lex, rem)
      | none => none
    else none

/-- Parse the members of an object after `{` and leading whitespace;
`first` marks whether no member has been consumed yet. -/
def parseJsonMembers : Nat → List Char → Bool → Option (Json × List Char)
  | 0, _, _ => none
  | fuel + 1, l, first =>
    match l with
    | '\x7d' :: rest => if first then some (.obj [], rest) else none
    | _ =>
      match l with
      | '"' :: rest =>
        match parseJsonStringBody (fuel + 1) rest with
        | some (key, rem) =>
          match skipJsonWs rem with
          | ':' :: rem2 =>
            match parseJsonValue fuel (skipJsonWs rem2) with
            | some (v, rem3) =>
              match skipJsonWs rem3 with
              | ',' :: rem4 =>
                match parseJsonMembersMore fuel (skipJsonWs rem4) with
                | some (kvs, rem5) => some (.obj ((key, v) :: kvs), rem5)
                | none => none
              | '\x7d' :: rem4 => some (.obj [(key, v)], rem4)
              | _ => none
            | none => none
          | _ => none
        | none => none
      | _ => none

/-- Continue an object after a comma: another member is mandatory. -/
def parseJsonMembersMore : Nat → List Char → Option (List (List Char × Json) × List Char)
  | 0, _ => none
  | fuel + 1, l =>
    match l with
    | '"' :: rest =>
      match parseJsonStringBody (fuel + 1) rest with
      | some (key, rem) =>
        match skipJsonWs rem with
        | ':' :: rem2 =>
          match parseJsonValue fuel (skipJsonWs rem2) with
          | some (v, rem3) =>
            match skipJsonWs rem3 with
            | ',' :: rem4 =>
              match parseJsonMembersMore fuel (skipJsonWs rem4) with
              | some (kvs, rem5) => some ((key, v) :: kvs, rem5)
              | none => none
            | '\x7d' :: rem4 => some ([(key, v)], rem4)
            | _ => none
          | none => none
        | _ => none
      | none => none
    | _ => none

/-- Parse the elements of an array after `[` and leading whitespace. -/
def parseJsonElems : Nat → List Char → Bool → Option (Json × List Char)
  | 0, _, _ => none
  | fuel + 1, l, first =>
    match l with
    | ']' :: rest => if first then some (.arr [], rest) else none
    | _ =>
      match parseJsonValue fuel l with
      | some (v, rem) =>
        match skipJsonWs rem with
        | ',' :: rem2 =>
          match parseJsonElemsMore fuel (skipJsonWs rem2) with
          | some (vs, rem3) => some (.arr (v :: vs), rem3)
          | none => none
        | ']' :: rem2 => some (.arr [v], rem2)
        | _ => none
      | none => none

/-- Continue an array after a comma: another element is mandatory. -/
def parseJsonElemsMore : Nat → List Char → Option (List Json × List Char)
  | 0, _ => none
  | fuel + 1, l =>
    match parseJsonValue fuel l with
    | some (v, rem) =>
      match skipJsonWs rem with
      | ',' :: rem2 =>
        match parseJsonElemsMore fuel (skipJsonWs rem2) with
        | some (vs, rem3) => some (v :: vs, rem3)
        | none => none
      | ']' :: rem2 => some ([v], rem2)
      | _ => none
    | none => none

end

/-- Source `JSON.parse(text)`: a single value with surrounding whitespace and
nothing after it.  The fuel `2 * length + 4` dominates the recursion
depth, which consumes at least one character per unit. -/
def jsonParse (l : List Char) : Option Json :=
  match parseJsonValue (2 * l.length + 4) (skipJsonWs l) with
  | some (v, rem) => if skipJsonWs rem = [] then some v else none
  | none => none

def isOpenBracket (c : Char) : Bool := c = '[' || c = '\x7b'

def isCloseBracket (c : Char) : Bool := c = ']' || c = '\x7d'

/-- Index of the first element satisfying `p`, if any. -/
def firstIdxWhere (p : Char → Bool) (l : List Char) : Option Nat :=
  l.findIdx? p

/-- Index of the last element satisfying `p`, if any. -/
def lastIdxWhere (p : Char → Bool) (l : List Char) : Option Nat :=
  match l.reverse.findIdx? p with
  | some k => some (l.length - 1 - k)
  | none => none

/-- Source `response.match(/(\[|\{).*(\]|\})/s)`: with the dot-all greedy `.*`,
the match (if any) runs from the first opening bracket to the last closing
bracket, which must lie strictly after it; if the first opening bracket
has no closing bracket after it, no later start can have one either, so
there is no match. -/
def jsonSpanMatch (l : List Char) : Option (List Char) :=
  match firstIdxWhere isOpenBracket l, lastIdxWhere isCloseBracket l with
  | some s, some e =>
    if s < e then some (jsSlice l (s : Int) ((e : Int) + 1)) else none
  | _, _ => none

/-- The one-shot repair: append a closing brace or bracket matching the
span's first character. -/
def repairJsonStr (jsonStr : List Char) : List Char :=
  match jsonStr with
  | '\x7b' :: _ => jsonStr ++ ['\x7d']
  | '[' :: _ => jsonStr ++ [']']
  | _ => jsonStr

inductive GroqParsed where
  | json (v : Json)
  | raw (s : List Char)

/-- The extracted candidate payload: the bracketed span when the regex
matches, else the whole response (`jsonMatch ? jsonMatch[0] : response`). -/
def extractJsonStr (response : List Char) : List Char :=
  match jsonSpanMatch response with
  | some s => s
  | none => response

/-- The structured-kind parsing block of `analyzeWithGroq` (for
`characters`, `themes`, `sentiment` and `character-graph` responses):
extract the bracketed span (or fall back to the whole response), parse it;
on failure repair once and parse again; on renewed failure the outer catch
returns the raw response string. -/
def interpretGroqResponse (response : List Char) : GroqParsed :=
  let jsonStr := extractJsonStr response
  match jsonParse jsonStr with
  | some v => .json v
  | none =>
    match jsonParse (repairJsonStr jsonStr) with
    | some v => .json v
    | none => .raw response

/-! ### Concrete inputs used by witnesses and counterexamples -/

/-- A text where the heading patterns match at offsets 0 (`CHAPTER 1.`)
and 8 (`1.`): the first span trims to the 7-character `CHAPTER` and is
discarded, and the second span's trailing newline is trimmed away. -/
def chapterCexText : List Char :=
  "CHAPTER 1. ".toList ++ List.replicate 105 'a' ++ ['\n']

/-- The truncated themes response of the specification's scenario:
`[{"theme":"Loss","description":"..."` with no closing brackets. -/
def truncatedThemesResponse : List Char :=
  "[\x7b\"theme\":\"Loss\",\"description\":\"...\"".toList

/-- Five recorded calls for endpoint `x` within the last minute of
`now = 100000`. -/
def fiveCallsLastMinute : List APICallRecord :=
  [⟨95000, "x"⟩, ⟨96000, "x"⟩, ⟨97000, "x"⟩, ⟨98000, "x"⟩, ⟨99000, "x"⟩]

/-- An axios-style rejection with HTTP status 401. -/
def errStatus401 : JsError :=
  { message := "Request failed with status code 401",
    responseStatus := some 401, responseDataMessage := none,
    responseStatusText := "Unauthorized", retryAfterHeader := none, code := none }

theorem mem_stableInsert (leB : α → α → Bool) (a x : α) (l : List α) :
    x ∈ stableInsert leB a l ↔ x = a ∨ x ∈ l := by
  induction l with
  | nil => simp [stableInsert]
  | cons b t ih =>
    by_cases h : leB a b = true
    · simp [stableInsert, h]
    · simp only [stableInsert, if_neg h, List.mem_cons, ih]
      tauto

theorem mem_jsSortLeB (leB : α → α → Bool) (x : α) (l : List α) :
    x ∈ jsSortLeB leB l ↔ x ∈ l := by
  induction l with
  | nil => simp [jsSortLeB]
  | cons a t ih => simp [jsSortLeB, mem_stableInsert, ih]

theorem length_stableInsert (leB : α → α → Bool) (a : α) (l : List α) :
    (stableInsert leB a l).length = l.length + 1 := by
  induction l with
  | nil => rfl
  | cons b t ih =>
    by_cases h : leB a b = true
    · simp [stableInsert, h]
    · simp [stableInsert, h, ih]

theorem length_jsSortLeB (leB : α → α → Bool) (l : List α) :
    (jsSortLeB leB l).length = l.length := by
  induction l with
  | nil => rfl
  | cons a t ih => simp [jsSortLeB, length_stableInsert, ih]

/-- The output of the stable sort is a chain under `leB`, provided `leB` is
total. -/
theorem chain'_stableInsert (leB : α → α → Bool)
    (total : ∀ x y, leB x y = true ∨ leB y x = true) (a : α) (l : List α)
    (h : List.Chain' (fun x y => leB x y = true) l) :
    List.Chain' (fun x y => leB x y = true) (stableInsert leB a l) := by
  induction l with
  | nil => simp [stableInsert]
  | cons b t ih =>
    by_cases hab : leB a b = true
    · simpa [stableInsert, hab] using h
    · have hba : leB b a = true := (total a b).resolve_left hab
      have ht : List.Chain' (fun x y => leB x y = true) t := h.tail
      have hit := ih ht
      simp only [stableInsert, if_neg hab]
      cases ht' : stableInsert leB a t with
      | nil => simp
      | cons c cs =>
        rw [ht'] at hit
        refine List.Chain'.cons ?_ hit
        have hc : c = a ∨ c ∈ t := by
          have : c ∈ stableInsert leB a t := by rw [ht']; exact List.mem_cons_self _ _
          exact (mem_stableInsert leB a c t).mp this
        rcases hc with rfl | hct
        · exact hba
        · cases t with
          | nil => cases hct
          | cons u us =>
            by_cases hau : leB a u = true
            · simp [stableInsert, hau] at ht'
              rcases ht' with ⟨rfl, -⟩
              exact hba
            · simp [stableInsert, hau] at ht'
              rcases ht' with ⟨rfl, -⟩
              exact (List.chain'_cons.mp h).1

theorem chain'_jsSortLeB (leB : α → α → Bool)
    (total : ∀ x y, leB x y = true ∨ leB y x = true) (l : List α) :
    List.Chain' (fun x y => leB x y = true) (jsSortLeB leB l) := by
  induction l with
  | nil => simp [jsSortLeB]
  | cons a t ih => exact chain'_stableInsert leB total a _ ih

/-- In a transitive chain, the head is below every element of the tail. -/
theorem chain'_head_le (leB : α → α → Bool)
    (htrans : ∀ x y z, leB x y = true → leB y z = true → leB x z = true)
    (a : α) (l : List α)
    (h : List.Chain' (fun x y => leB x y = true) (a :: l)) :
    ∀ b ∈ l, leB a b = true := by
  induction l generalizing a with
  | nil => intro b hb; cases hb
  | cons c cs ih =>
    intro b hb
    have hac : leB a c = true := (List.chain'_cons.mp h).1
    rcases hb with _ | hb'
    · exact hac
    · exact htrans a c b hac (ih c (List.chain'_cons.mp h).2 b (by assumption))

/-- Every match reported by the scanner starts inside the scanned suffix. -/
theorem scanMatchesAux_pos_lt (matchAt : Option Char → List Char → Option Nat)
    (fuel : Nat) :
    ∀ (prev : Option Char) (l : List Char) (pos : Nat),
      ∀ p ∈ scanMatchesAux matchAt fuel prev l pos, pos ≤ p.1 ∧ p.1 < pos + l.length := by
  induction fuel with
  | zero => intro prev l pos p hp; simp [scanMatchesAux] at hp
  | succ fuel ih =>
    intro prev l pos p hp
    match l with
    | [] => simp [scanMatchesAux] at hp
    | c :: rest =>
      simp only [scanMatchesAux] at hp
      cases hm : matchAt prev (c :: rest) with
      | none =>
        rw [hm] at hp
        have := ih (some c) rest (pos + 1) p hp
        constructor
        · omega
        · have h2 := this.2
          simp only [List.length_cons]
          omega
      | some n =>
        cases n with
        | zero =>
          rw [hm] at hp
          rcases List.mem_cons.mp hp with rfl | hp'
          · constructor
            · omega
            · simp only [List.length_cons]; omega
          · have := ih (some c) rest (pos + 1) p hp'
            constructor
            · omega
            · have h2 := this.2
              simp only [List.length_cons]
              omega
        | succ m =>
          rw [hm] at hp
          rcases List.mem_cons.mp hp with rfl | hp'
          · constructor
            · omega
            · simp only [List.length_cons]; omega
          · have := ih ((c :: rest).get? m) ((c :: rest).drop (m + 1)) (pos + (m + 1)) p hp'
            constructor
            · omega
            · have h2 := this.2
              have hd : ((c :: rest).drop (m + 1)).length = (c :: rest).length - (m + 1) := by
                simp [List.length_drop]
              omega

theorem scanMatches_pos_lt (matchAt : Option Char → List Char → Option Nat)
    (l : List Char) :
    ∀ p ∈ scanMatches matchAt l, p.1 < l.length := by
  intro p hp
  have := scanMatchesAux_pos_lt matchAt l.length none l 0 p hp
  omega

/-! ### Claim C1 (code bug): the retry counter never advances -/

/-- C1: the claim states that under persistent HTTP 429 rejections
`withRateLimit(apiCall, endpoint, 0)` re-invokes `apiCall` at most
`numberOfRetries = 5` times and then throws "Maximum retries reached".
The source recurses with `retry++`, whose value is the un-incremented
counter, so every recursive level runs with `retry = 0`: unfolding the
recursion to any depth never reaches the "Maximum retries reached" branch,
and the recursion does not terminate.  This theorem evaluates the model of
the code at the claim's failing input (always-429, initial retry 0,
default `numberOfRetries = 5`) for every unfolding depth. -/
theorem withRateLimitAlways429_never_reaches_max :
    ∀ fuel : Nat, withRateLimitAlways429 5 0 fuel = RetryRunOutcome.exhaustedFuel := by
  intro fuel
  induction fuel with
  | zero => rfl
  | succ n ih =>
    rw [withRateLimitAlways429]
    simpa [jsPostInc] using ih

/-! ### Claim C2 (corrected): compression is not non-expansive -/

/-- C2 counterexample: for the single-paragraph text `"ab"` with budget
`N = 1` and the `themes` kind, the compressor duplicates the only
paragraph (`first ++ "\n\n" ++ last`), producing 6 characters — more than
`max(text.length, N) = 2`.  The claimed bound
`compressTextForAnalysis(text, kind, N).length ≤ max(text.length, N)`
is false. -/
theorem compressTextForAnalysis_expansion_cex :
    ¬ ((compressTextForAnalysis "ab".toList AnalysisType.themes 1).length ≤
        max "ab".toList.length 1) := by
  decide

/-- C2 amended: the compressor is the identity whenever the input already
fits the budget (`text.length ≤ N`); for longer inputs the output is not
bounded by `max(text.length, N)` (single-paragraph inputs are duplicated
around the first/last-paragraph scaffolding, as the counterexample
shows). -/
theorem compressTextForAnalysis_id_of_fits (text : List Char)
    (analysisType : AnalysisType) (maxLength : Int)
    (h : (text.length : Int) ≤ maxLength) :
    compressTextForAnalysis text analysisType maxLength = text := by
  unfold compressTextForAnalysis
  rw [if_pos h]

theorem compressTextForAnalysis_id_of_fits_witness :
    (("ab".toList.length : Int) ≤ 5) ∧
      compressTextForAnalysis "ab".toList AnalysisType.themes 5 = "ab".toList :=
  ⟨by decide, compressTextForAnalysis_id_of_fits _ _ _ (by decide)⟩

/-! ### Claim C3 (corrected): the token budget fitter can exceed the budget -/

/-- C3 counterexample: for the 8-character prompt `"abcdabcd"` (which has
no `"""` delimiters) and `reservedTokens = 8191`, the budget is
`8192 - 8191 = 1` token; the prompt estimates at 2 tokens, so the blind
truncation path keeps `floor(8 * 1/2) = 4` characters and appends `"..."`,
giving 7 characters estimating at 2 tokens — still over the budget — and
the prompt was not returned unchanged either.  Both disjuncts of the claim
fail. -/
theorem optimizePromptForTokenLimit_over_budget_cex :
    ¬ (((estimateTokenCount (optimizePromptForTokenLimit "abcdabcd".toList
            AnalysisType.themes "model" 8191).length : Int) ≤ (8192 : Int) - 8191) ∨
        (((estimateTokenCount "abcdabcd".toList.length : Int) ≤ (8192 : Int) - 8191) ∧
          optimizePromptForTokenLimit "abcdabcd".toList AnalysisType.themes "model" 8191 =
            "abcdabcd".toList)) := by
  decide

/-- C3 amended: the fitter returns the prompt unchanged whenever the
prompt already satisfies `estimateTokenCount(prompt.length) ≤ 8192 -
reservedTokens`; when it is over budget the proportional reduction plus
the ellipsis/omission-marker overhead can leave the output above the
budget, as the counterexample shows. -/
theorem optimizePromptForTokenLimit_id_of_fits (prompt : List Char)
    (analysisType : AnalysisType) (modelName : String) (reservedTokens : Int)
    (h : (estimateTokenCount prompt.length : Int) ≤ (8192 : Int) - reservedTokens) :
    optimizePromptForTokenLimit prompt analysisType modelName reservedTokens = prompt := by
  unfold optimizePromptForTokenLimit MODEL_TOKEN_LIMITS
  rw [if_pos h]

theorem optimizePromptForTokenLimit_id_witness :
    ((estimateTokenCount "abcd".toList.length : Int) ≤ (8192 : Int) - 1000) ∧
      optimizePromptForTokenLimit "abcd".toList AnalysisType.summary "model" 1000 =
        "abcd".toList :=
  ⟨by decide, optimizePromptForTokenLimit_id_of_fits _ _ _ _ (by decide)⟩

/-! ### Claim C5 (corrected): the one-shot repair fails on the scenario -/

/-- C5 counterexample: on the truncated themes response
`[{"theme":"Loss","description":"..."` the regex finds no bracketed span
(there is no closing bracket at all), the raw parse fails, the repair
appends a single `]`, the re-parse still fails (the object brace is never
closed), and the interpreter returns the raw response — not a parsed
one-element array as claimed. -/
theorem interpretGroqResponse_truncated_themes_cex :
    repairJsonStr (extractJsonStr truncatedThemesResponse) =
        truncatedThemesResponse ++ [']'] ∧
      jsonParse (extractJsonStr truncatedThemesResponse) = none ∧
      jsonParse (repairJsonStr (extractJsonStr truncatedThemesResponse)) = none ∧
      interpretGroqResponse truncatedThemesResponse =
        GroqParsed.raw truncatedThemesResponse :=
  ⟨rfl, rfl, rfl, rfl⟩

/-- C5 amended: on the scenario response the single repair still fails to
parse, so the interpreter returns the raw response string; in general, any
structured-kind response whose extracted span fails to parse both before
and after the one-shot repair is returned as the raw string instead of
raising. -/
theorem interpretGroqResponse_raw_of_still_malformed (response : List Char)
    (h1 : jsonParse (extractJsonStr response) = none)
    (h2 : jsonParse (repairJsonStr (extractJsonStr response)) = none) :
    interpretGroqResponse response = GroqParsed.raw response := by
  simp only [interpretGroqResponse]
  rw [h1, h2]

theorem interpretGroqResponse_raw_witness :
    jsonParse (extractJsonStr "not json".toList) = none ∧
      jsonParse (repairJsonStr (extractJsonStr "not json".toList)) = none ∧
      interpretGroqResponse "not json".toList = GroqParsed.raw ("not json".toList) :=
  ⟨rfl, rfl, interpretGroqResponse_raw_of_still_malformed _ rfl rfl⟩

/-! ### Claim C8 (confirmed): HTTP 401 is terminal -/

/-- C8: when the outbound call rejects with HTTP status 401, the request
executor maps it to an error with message "Invalid API key. Please check
your credentials and try again."; that error does not satisfy
`withRateLimit`'s retry test (no `response.status` of 429, no
`rate_limit_exceeded` code), so `withRateLimit` rethrows it without a
recursive re-invocation and without recording a timestamp: the history is
returned unchanged. -/
theorem makeGroqRequest_401_terminal (err : JsError) (calls : List APICallRecord)
    (now : Int) (endpoint : String) (h : err.responseStatus = some 401) :
    (makeGroqRequestHandler err).message =
        "Invalid API key. Please check your credentials and try again." ∧
      isRateLimitRetryError (makeGroqRequestHandler err) = false ∧
      withRateLimitOnce
          (Except.error (makeGroqRequestHandler err) : Except JsError String)
          calls now endpoint =
        (Except.error (makeGroqRequestHandler err), calls, false) := by
  have hm : makeGroqRequestHandler err =
      { message := "Invalid API key. Please check your credentials and try again.",
        responseStatus := none, responseDataMessage := none,
        responseStatusText := "", retryAfterHeader := none, code := none } := by
    unfold makeGroqRequestHandler
    rw [h]
    simp
  rw [hm]
  refine ⟨rfl, rfl, ?_⟩
  unfold withRateLimitOnce isRateLimitRetryError
  simp

theorem makeGroqRequest_401_terminal_witness :
    (makeGroqRequestHandler errStatus401).message =
        "Invalid API key. Please check your credentials and try again." ∧
      isRateLimitRetryError (makeGroqRequestHandler errStatus401) = false ∧
      withRateLimitOnce
          (Except.error (makeGroqRequestHandler errStatus401) : Except JsError String)
          [] 0 "groq" =
        (Except.error (makeGroqRequestHandler errStatus401), [], false) :=
  makeGroqRequest_401_terminal errStatus401 [] 0 "groq" rfl

/-! ### Claim C9 (confirmed): the no-marker fallback -/

/-- C9: when none of the four chapter-heading patterns matches anywhere in
the text — that is, the collected marker list is empty —
`splitBookIntoChapters` returns exactly one chapter titled "Complete Text"
whose content is the entire input. -/
theorem splitBookIntoChapters_fallback (text : List Char)
    (h : chapterMarkers text = []) :
    splitBookIntoChapters text = [⟨"Complete Text".toList, text⟩] := by
  unfold splitBookIntoChapters
  rw [if_pos h]

theorem splitBookIntoChapters_fallback_witness :
    chapterMarkers "hello world".toList = [] ∧
      splitBookIntoChapters "hello world".toList =
        [⟨"Complete Text".toList, "hello world".toList⟩] :=
  ⟨by decide, splitBookIntoChapters_fallback _ (by decide)⟩

/-! ### Claim C10 (confirmed): cleanup is observationally pure -/

theorem cleanupOldCalls_idem (calls : List APICallRecord) (now : Int) :
    cleanupOldCalls (cleanupOldCalls calls now) now = cleanupOldCalls calls now := by
  simp [cleanupOldCalls, List.filter_filter]

/-- C10: pruning the history of entries older than 24 hours never changes
the results of `canMakeCall`, `getTimeToWait`, or `getLimitsInfo` at the
same instant: every removed record lies outside all three counting
windows, so these reads are observationally pure despite the source
mutating the stored history. -/
theorem cleanupOldCalls_observationally_pure (cfg : RateLimitConfig)
    (calls : List APICallRecord) (now : Int) (endpoint : String) :
    canMakeCall cfg (cleanupOldCalls calls now) now endpoint =
        canMakeCall cfg calls now endpoint ∧
      getTimeToWait cfg (cleanupOldCalls calls now) now endpoint =
        getTimeToWait cfg calls now endpoint ∧
      getLimitsInfo cfg (cleanupOldCalls calls now) now endpoint =
        getLimitsInfo cfg calls now endpoint := by
  have hidem := cleanupOldCalls_idem calls now
  have hcan : canMakeCall cfg (cleanupOldCalls calls now) now endpoint =
      canMakeCall cfg calls now endpoint := by
    unfold canMakeCall
    rw [hidem]
  have hwin : minuteWindow (cleanupOldCalls calls now) now endpoint =
      minuteWindow calls now endpoint := by
    unfold minuteWindow
    rw [hidem]
  refine ⟨hcan, ?_, ?_⟩
  · unfold getTimeToWait recentMinuteCalls
    rw [hcan, hwin]
  · unfold getLimitsInfo
    rw [hidem]

/-! ### Claim C7 (confirmed): admission is pure and antitone in history -/

theorem canMakeCall_append_true (cfg : RateLimitConfig)
    (calls extra : List APICallRecord) (now : Int) (endpoint : String)
    (h : canMakeCall cfg (calls ++ extra) now endpoint = true) :
    canMakeCall cfg calls now endpoint = true := by
  simp only [canMakeCall, cleanupOldCalls, callsInWindow, List.filter_append,
    List.length_append, Bool.and_eq_true, decide_eq_true_eq] at h ⊢
  obtain ⟨⟨h1, h2⟩, h3⟩ := h
  refine ⟨⟨by omega, by omega⟩, by omega⟩

/-- C7: `canMakeCall` is a pure function of the stored history, the
configured ceilings and the current instant — it is `true` exactly when
the three windowed counts over the cleaned history are strictly below
their ceilings — and it is antitone in the history: once `false`, adding
further calls for the endpoint whose timestamps lie inside the day window
(which contains the minute and hour windows) can never make it `true`. -/
theorem canMakeCall_pure_and_antitone (cfg : RateLimitConfig)
    (calls : List APICallRecord) (now : Int) (endpoint : String) :
    (canMakeCall cfg calls now endpoint = true ↔
      (callsInWindow (cleanupOldCalls calls now) now (60 * 1000) endpoint <
          cfg.maxCallsPerMinute ∧
        callsInWindow (cleanupOldCalls calls now) now (60 * 60 * 1000) endpoint <
          cfg.maxCallsPerHour ∧
        callsInWindow (cleanupOldCalls calls now) now (24 * 60 * 60 * 1000) endpoint <
          cfg.maxCallsPerDay)) ∧
      (∀ extra : List APICallRecord,
        (∀ r ∈ extra, r.endpoint = endpoint ∧ now - 24 * 60 * 60 * 1000 < r.timestamp) →
        canMakeCall cfg calls now endpoint = false →
        canMakeCall cfg (calls ++ extra) now endpoint = false) := by
  constructor
  · simp [canMakeCall, Bool.and_eq_true, decide_eq_true_eq, and_assoc]
  · intro extra _hextra hfalse
    cases hcm : canMakeCall cfg (calls ++ extra) now endpoint with
    | false => rfl
    | true =>
      rw [canMakeCall_append_true cfg calls extra now endpoint hcm] at hfalse
      cases hfalse

theorem canMakeCall_pure_and_antitone_witness :
    canMakeCall defaultRateLimitConfig
        (fiveCallsLastMinute ++ [⟨99500, "x"⟩]) 100000 "x" = false :=
  (canMakeCall_pure_and_antitone defaultRateLimitConfig fiveCallsLastMinute
      100000 "x").2 [⟨99500, "x"⟩] (by decide) (by decide)

/-! ### Claim C6 (confirmed): the computed wait time -/

theorem head_min_timestamp (l : List APICallRecord) (a : APICallRecord)
    (t : List APICallRecord)
    (h : jsSortLeB (fun x y => x.timestamp ≤ y.timestamp) l = a :: t) :
    a ∈ l ∧ ∀ b ∈ l, a.timestamp ≤ b.timestamp := by
  have htotal : ∀ x y : APICallRecord,
      (fun x y : APICallRecord => (x.timestamp ≤ y.timestamp : Bool)) x y = true ∨
        (fun x y : APICallRecord => (x.timestamp ≤ y.timestamp : Bool)) y x = true := by
    intro x y
    rcases le_total x.timestamp y.timestamp with hxy | hyx
    · left; simpa using hxy
    · right; simpa using hyx
  have hchain := chain'_jsSortLeB
    (fun x y : APICallRecord => (x.timestamp ≤ y.timestamp : Bool)) htotal l
  rw [h] at hchain
  have htrans : ∀ x y z : APICallRecord,
      (fun x y : APICallRecord => (x.timestamp ≤ y.timestamp : Bool)) x y = true →
      (fun x y : APICallRecord => (x.timestamp ≤ y.timestamp : Bool)) y z = true →
      (fun x y : APICallRecord => (x.timestamp ≤ y.timestamp : Bool)) x z = true := by
    intro x y z hxy hyz
    simp only [decide_eq_true_eq] at hxy hyz ⊢
    exact le_trans hxy hyz
  have hhead := chain'_head_le _ htrans a t hchain
  constructor
  · have : a ∈ jsSortLeB (fun x y => x.timestamp ≤ y.timestamp) l := by
      rw [h]; exact List.mem_cons_self _ _
    exact (mem_jsSortLeB _ _ _).mp this
  · intro b hb
    have : b ∈ jsSortLeB (fun x y => x.timestamp ≤ y.timestamp) l :=
      (mem_jsSortLeB _ _ _).mpr hb
    rw [h] at this
    rcases List.mem_cons.mp this with rfl | hbt
    · exact le_refl _
    · simpa using hhead b hbt

/-- C6: `getTimeToWait` returns 0 whenever `canMakeCall` is true; when
admission is blocked and the trailing-minute window holds at least
`maxCallsPerMinute` calls for the endpoint, it returns
`(oldest.timestamp + 60000) - now + 100` for the oldest call of that
window; and when admission is blocked only by the hourly or daily ceiling
(fewer than `maxCallsPerMinute` calls in the trailing minute) it
returns 0. -/
theorem getTimeToWait_spec (cfg : RateLimitConfig) (calls : List APICallRecord)
    (now : Int) (endpoint : String) :
    (canMakeCall cfg calls now endpoint = true →
      getTimeToWait cfg calls now endpoint = 0) ∧
      (canMakeCall cfg calls now endpoint = false →
        cfg.maxCallsPerMinute ≤ (minuteWindow calls now endpoint).length →
        minuteWindow calls now endpoint ≠ [] →
        ∃ oldest ∈ minuteWindow calls now endpoint,
          (∀ r ∈ minuteWindow calls now endpoint, oldest.timestamp ≤ r.timestamp) ∧
          getTimeToWait cfg calls now endpoint =
            oldest.timestamp + 60 * 1000 - now + 100) ∧
      (canMakeCall cfg calls now endpoint = false →
        (minuteWindow calls now endpoint).length < cfg.maxCallsPerMinute →
        getTimeToWait cfg calls now endpoint = 0) := by
  have hlen : (recentMinuteCalls calls now endpoint).length =
      (minuteWindow calls now endpoint).length := by
    unfold recentMinuteCalls
    exact length_jsSortLeB _ _
  refine ⟨?_, ?_, ?_⟩
  · intro htrue
    unfold getTimeToWait
    rw [if_pos htrue]
  · intro hfalse hge hne
    cases hsort : recentMinuteCalls calls now endpoint with
    | nil =>
      exfalso
      have : (minuteWindow calls now endpoint).length = 0 := by
        rw [← hlen, hsort]
        rfl
      exact hne (List.length_eq_zero.mp this)
    | cons a t =>
      obtain ⟨hmem, hmin⟩ := head_min_timestamp (minuteWindow calls now endpoint) a t hsort
      refine ⟨a, hmem, hmin, ?_⟩
      unfold getTimeToWait
      rw [if_neg (by simp [hfalse])]
      rw [if_pos (by rw [hlen]; exact hge)]
      rw [hsort]
      rfl
  · intro hfalse hlt
    unfold getTimeToWait
    rw [if_neg (by simp [hfalse])]
    rw [if_neg (by rw [hlen]; omega)]

theorem getTimeToWait_spec_witness :
    ∃ oldest ∈ minuteWindow fiveCallsLastMinute 100000 "x",
      (∀ r ∈ minuteWindow fiveCallsLastMinute 100000 "x",
        oldest.timestamp ≤ r.timestamp) ∧
      getTimeToWait defaultRateLimitConfig fiveCallsLastMinute 100000 "x" =
        oldest.timestamp + 60 * 1000 - 100000 + 100 :=
  (getTimeToWait_spec defaultRateLimitConfig fiveCallsLastMinute 100000 "x").2.1
    (by decide) (by decide) (by decide)

/-! ### Claim C4 (corrected): spans partition, returned contents do not -/

theorem jsSlice_natCast (l : List α) (a b : Nat) (ha : a ≤ l.length)
    (hb : b ≤ l.length) :
    jsSlice l (a : Int) (b : Int) = (l.drop a).take (b - a) := by
  unfold jsSlice jsSliceIdx
  have hna : ¬ ((a : Int) < 0) := by omega
  have hnb : ¬ ((b : Int) < 0) := by omega
  rw [if_neg hna, if_neg hnb]
  simp [Nat.min_eq_left ha, Nat.min_eq_left hb]

theorem chapterMarkers_lt_length (text : List Char) :
    ∀ m ∈ chapterMarkers text, m.1 < text.length := by
  intro m hm
  unfold chapterMarkers at hm
  rw [List.mem_flatten] at hm
  obtain ⟨inner, hinner, hmem⟩ := hm
  rw [List.mem_map] at hinner
  obtain ⟨pat, _hpat, rfl⟩ := hinner
  rw [List.mem_map] at hmem
  obtain ⟨p, hp, rfl⟩ := hmem
  exact scanMatches_pos_lt pat text p hp

theorem sortedChapterMarkers_chain (text : List Char) :
    List.Chain' (fun i j => i ≤ j) ((sortedChapterMarkers text).map (fun m => m.1)) := by
  have htotal : ∀ x y : Nat × List Char,
      (fun a b : Nat × List Char => (a.1 ≤ b.1 : Bool)) x y = true ∨
        (fun a b : Nat × List Char => (a.1 ≤ b.1 : Bool)) y x = true := by
    intro x y
    rcases Nat.le_total x.1 y.1 with hxy | hyx
    · left; simpa using hxy
    · right; simpa using hyx
  have hchain := chain'_jsSortLeB
    (fun a b : Nat × List Char => (a.1 ≤ b.1 : Bool)) htotal (chapterMarkers text)
  have hchain' : List.Chain' (fun a b : Nat × List Char => a.1 ≤ b.1)
      (sortedChapterMarkers text) := by
    unfold sortedChapterMarkers
    exact hchain.imp (fun _ _ hab => of_decide_eq_true hab)
  exact (List.chain'_map (fun m : Nat × List Char => m.1)).mpr hchain'

theorem sortedChapterMarkers_le_length (text : List Char) :
    ∀ i ∈ (sortedChapterMarkers text).map (fun m => m.1), i ≤ text.length := by
  intro i hi
  rw [List.mem_map] at hi
  obtain ⟨m, hm, rfl⟩ := hi
  have : m ∈ chapterMarkers text := by
    unfold sortedChapterMarkers at hm
    exact (mem_jsSortLeB _ _ _).mp hm
  exact le_of_lt (chapterMarkers_lt_length text m this)

theorem spanBounds_join (text : List Char) :
    ∀ idxs : List Nat, idxs ≠ [] →
      List.Chain' (fun i j => i ≤ j) idxs →
      (∀ i ∈ idxs, i ≤ text.length) →
      ((spanBounds idxs text.length).map
          (fun b => jsSlice text (b.1 : Int) (b.2 : Int))).flatten =
        text.drop (idxs.headD 0) := by
  intro idxs
  induction idxs with
  | nil => intro hne; exact absurd rfl hne
  | cons i rest ih =>
    intro _hne hchain hbound
    cases rest with
    | nil =>
      have hi : i ≤ text.length := hbound i (List.mem_singleton_self i)
      simp only [spanBounds, List.map, List.flatten, List.headD]
      rw [jsSlice_natCast text i text.length hi (le_refl _)]
      rw [List.take_of_length_le (by simp)]
      simp
    | cons j rest2 =>
      have hij : i ≤ j := (List.chain'_cons.mp hchain).1
      have hi : i ≤ text.length := hbound i (List.mem_cons_self _ _)
      have hj : j ≤ text.length := hbound j (List.mem_cons_of_mem _ (List.mem_cons_self _ _))
      have hrec := ih (by simp) (List.chain'_cons.mp hchain).2
        (fun k hk => hbound k (List.mem_cons_of_mem _ hk))
      simp only [spanBounds, List.map, List.flatten] at hrec ⊢
      rw [hrec]
      rw [jsSlice_natCast text i j hi hj]
      simp only [List.headD]
      calc (text.drop i).take (j - i) ++ text.drop j
          = (text.drop i).take (j - i) ++ ((text.drop i).drop (j - i)) := by
            rw [List.drop_drop, Nat.add_sub_cancel' hij]
        _ = text.drop i := List.take_append_drop _ _

/-- C4 amended: the untrimmed marker-to-marker spans, taken in sorted
marker order, concatenate exactly to the text from the first marker's
offset to the end — no gaps, no overlaps.  The chapters actually returned
by `splitBookIntoChapters` are these spans after `trim()` with trimmed
spans of length ≤ 100 discarded (see `buildChapters`), so the returned
contents may drop edge whitespace and whole short spans, as the
counterexample shows. -/
theorem chapterSpans_partition (text : List Char)
    (h : chapterMarkers text ≠ []) :
    ((spanBounds ((sortedChapterMarkers text).map (fun m => m.1)) text.length).map
        (fun b => jsSlice text (b.1 : Int) (b.2 : Int))).flatten =
      text.drop (((sortedChapterMarkers text).map (fun m => m.1)).headD 0) := by
  apply spanBounds_join
  · intro hmap
    apply h
    have hlen : (sortedChapterMarkers text).length = (chapterMarkers text).length := by
      unfold sortedChapterMarkers
      exact length_jsSortLeB _ _
    have : (sortedChapterMarkers text).length = 0 := by
      rw [← List.length_map (f := fun m : Nat × List Char => m.1), hmap]
      rfl
    rw [this] at hlen
    exact List.length_eq_zero.mp hlen.symm
  · exact sortedChapterMarkers_chain text
  · exact sortedChapterMarkers_le_length text

theorem chapterSpans_partition_witness :
    chapterMarkers "XI. aaa".toList ≠ [] ∧
      ((spanBounds ((sortedChapterMarkers "XI. aaa".toList).map (fun m => m.1))
            "XI. aaa".toList.length).map
          (fun b => jsSlice "XI. aaa".toList (b.1 : Int) (b.2 : Int))).flatten =
        "XI. aaa".toList.drop
          (((sortedChapterMarkers "XI. aaa".toList).map (fun m => m.1)).headD 0) :=
  ⟨by decide, chapterSpans_partition _ (by decide)⟩

/-- C4 counterexample: on `chapterCexText` (markers at offsets 0 and 8,
first marker at offset 0) the concatenated contents returned by
`splitBookIntoChapters` do not reconstruct the text from the first
marker's offset: the first span trims to 7 characters and is discarded
entirely (a gap), and the survivor's trailing newline is trimmed away. -/
theorem splitBookIntoChapters_not_partition_cex :
    chapterMarkers chapterCexText ≠ [] ∧
      ((sortedChapterMarkers chapterCexText).map (fun m => m.1)).headD 0 = 0 ∧
      ((splitBookIntoChapters chapterCexText).map (fun c => c.content)).flatten ≠
        chapterCexText.drop 0 := by
  refine ⟨by decide, by decide, by decide⟩
